import Mathlib

/-!
Verification of the catalog synchronization engine of kbase-image-catalog-ai.

The Go source is shallowly embedded: per-directory JSON indices become
association lists from base filenames to index values, timestamps (RFC3339
strings produced by time.Now().Format and compared via time.Parse/Unix) are
abstracted to their instants as naturals, and the external vision-model call
performed for one image is abstracted to an `Outcome` supplied per image.
File-system effects (loading, saving and deleting index.json / index.md) are
returned as data in a result structure instead of being performed.
-/

namespace KBase

/-- Result payload of the vision model, `llm.LLMResponse` in internal/llm/llm.go:
the JSON object decoded from the chat completion's message content. -/
structure LLMResponse where
  short_name : String
  description : String
deriving DecidableEq, Repr

/-- One entry of a directory index as written by the processor
(`currentData[imgKey] = map[string]interface{}{...}` in image_processor.go):
a JSON object with string fields short_name, description, original_name,
vl_model and an update_date timestamp (abstracted to a natural). -/
structure ImageRecord where
  short_name : String
  description : String
  original_name : String
  vl_model : String
  update_date : Nat
deriving DecidableEq, Repr

/-- A value stored under a filename key in a loaded index.json. The Go code
keeps `map[string]interface{}` values; a value is either a well-shaped record
object whose short_name (and sibling fields) are strings — the only shape the
code itself ever writes — or any other JSON value (non-object, or an object
without a string short_name), on which every `.(map[string]interface{})` /
`.(string)` type assertion in the reconciler fails. -/
inductive IndexValue where
  | record (r : ImageRecord)
  | malformed
deriving DecidableEq, Repr

/-- A directory index (`index.json` decoded): filename key to value, keys
unique. Embedded as an association list with Go-map insert/lookup semantics. -/
abbrev Index := List (String × IndexValue)

/-- First-match lookup in an association list, the embedding of Go map read. -/
def lookupA {α : Type} : List (String × α) → String → Option α
  | [], _ => none
  | (k, v) :: rest, key => if k = key then some v else lookupA rest key

/-- In-place replace-or-append, the embedding of Go map write. -/
def upsert {α : Type} : List (String × α) → String → α → List (String × α)
  | [], key, v => [(key, v)]
  | (k, w) :: rest, key, v =>
      if k = key then (key, v) :: rest else (k, w) :: upsert rest key v

/-- Suffix test on strings; embeds matching of a glob pattern `*X` (star does
not cross a path separator, and the matched names are single path components)
against a name, as used by filepath.Glob in FindImagesToProcess. -/
def strEndsWith (s suffix : String) : Bool :=
  suffix.data.isSuffixOf s.data

/-- Character-wise lowercasing, embedding strings.ToLower on ASCII names. -/
def strLower (s : String) : String :=
  ⟨s.data.map Char.toLower⟩

/-- Embedding of strings.ToUpper(ext[1:]): drop the leading byte (the dot of a
configured extension) and uppercase the rest, as in FindImagesToProcess. -/
def extUpperTail (ext : String) : String :=
  ⟨(ext.data.drop 1).map Char.toUpper⟩

/-- Suffix of a name from its last dot, inclusive; embedding of filepath.Ext
on a bare file name (directory entries contain no path separator). -/
def extAux : List Char → Option (List Char)
  | [] => none
  | c :: cs =>
      match extAux cs with
      | some r => some r
      | none => if c = '.' then some (c :: cs) else none

/-- filepath.Ext: extension of a file name, empty if the name has no dot. -/
def extOf (s : String) : String :=
  match extAux s.data with
  | some r => ⟨r⟩
  | none => ""

/-- Split a character list on '/', helper for filepath.Base. -/
def splitSlash : List Char → List (List Char)
  | [] => [[]]
  | c :: cs =>
      let r := splitSlash cs
      if c = '/' then [] :: r
      else
        match r with
        | [] => [[c]]
        | h :: t => (c :: h) :: t

/-- filepath.Base: last non-empty path element, with the Go edge cases of the
empty path (".") and an all-separator path ("/"). -/
def filepathBase (p : String) : String :=
  if p = "" then "."
  else
    match ((splitSlash p.data).filter (fun l => l ≠ [])).getLast? with
    | some l => ⟨l⟩
    | none => "/"

/-- The sentinel short name marking a failed, retry-eligible analysis. -/
def errorProcessingSentinel : String := "error_processing"

/-- needsProcessing (identical in DirectoryProcessor.needsProcessing,
catalog_processor.go lines 245-263, and ImageProcessor.needsProcessing,
image_processor.go lines 79-94): an image needs processing when its base
filename has no index entry, or the entry is an object whose short_name
string equals the error sentinel; a malformed entry (failed type assertion)
yields false. -/
def needsProcessing (currentData : Index) (imgPath : String) : Bool :=
  match lookupA currentData (filepathBase imgPath) with
  | none => true
  | some (.record r) => r.short_name = errorProcessingSentinel
  | some .malformed => false

/-- Result of the externally observable work for a single image in one pass:
encoding the file fails, the vision-model call fails, or the call returns a
decoded payload (short_name, description) together with the model name from
the HTTP response. -/
inductive Outcome where
  | encodeError
  | llmError
  | response (short_name description model : String)
deriving DecidableEq, Repr

/-- ValidateResponse (image_processor.go lines 119-124): a response is valid
when it is present and both short_name and description are non-empty. -/
def validateResponse : Option LLMResponse → Bool
  | none => false
  | some r => r.short_name != "" && r.description != ""

/-- The sentinel record written by handleProcessingError
(image_processor.go lines 126-136). -/
def errorRecord (imgPath : String) (now : Nat) : ImageRecord :=
  ⟨errorProcessingSentinel, "Error processing file (retry will be attempted)",
    filepathBase imgPath, "unknown", now⟩

/-- Result of ProcessSingleImage: the updated index, the returned processed
flag, whether a non-nil error was returned, and how many vision-model calls
(AskLLM invocations) were made. -/
structure SingleResult where
  data : Index
  processed : Bool
  failed : Bool
  calls : Nat
deriving Repr

/-- ProcessSingleImage (image_processor.go lines 25-77): skip when the image
does not need processing; an encoding failure or an AskLLM failure records
the sentinel and returns an error; a valid response records the full record
with the current timestamp; an invalid response records the sentinel without
an error. The AskLLM call happens exactly when encoding succeeded. -/
def processSingleImage (currentData : Index) (imgPath : String) (oc : Outcome)
    (now : Nat) : SingleResult :=
  if needsProcessing currentData imgPath then
    match oc with
    | .encodeError =>
        ⟨upsert currentData (filepathBase imgPath) (.record (errorRecord imgPath now)),
          true, true, 0⟩
    | .llmError =>
        ⟨upsert currentData (filepathBase imgPath) (.record (errorRecord imgPath now)),
          true, true, 1⟩
    | .response s ds m =>
        if validateResponse (some ⟨s, ds⟩) then
          ⟨upsert currentData (filepathBase imgPath)
              (.record ⟨s, ds, filepathBase imgPath, m, now⟩), true, false, 1⟩
        else
          ⟨upsert currentData (filepathBase imgPath) (.record (errorRecord imgPath now)),
            true, false, 1⟩
  else ⟨currentData, false, false, 0⟩

/-- Accumulated state of a processing loop over a directory's images: the
index, the hasChanges / newFilesFound flag, and the number of AskLLM calls. -/
structure PassResult where
  data : Index
  changed : Bool
  calls : Nat
deriving Repr

/-- Body of the sequential loop of ProcessDirectory (catalog_processor.go
lines 88-101): skip the reserved names, and on an error from
ProcessSingleImage continue without recording a change. -/
def seqStep (oc : String → Outcome) (now : Nat) (acc : PassResult)
    (imgPath : String) : PassResult :=
  if imgPath == "index.json" || imgPath == "index.md" then acc
  else
    let r := processSingleImage acc.data imgPath (oc imgPath) now
    if r.failed then ⟨r.data, acc.changed, acc.calls + r.calls⟩
    else ⟨r.data, acc.changed || r.processed, acc.calls + r.calls⟩

/-- The sequential (ParallelRequests ≤ 1) processing loop. -/
def processImagesSeq (currentData : Index) (imgs : List String)
    (oc : String → Outcome) (now : Nat) : PassResult :=
  imgs.foldl (seqStep oc now) ⟨currentData, false, 0⟩

/-- Per-image contribution in processImagesParallel: every goroutine either
reports its processed flag on the results channel or an error on the errors
channel, and newFilesFound is set by either. Completion order does not affect
the merged index because every image writes only its own key; the model fixes
one order. The cancellation path is not modelled (the context is live). -/
def parStep (oc : String → Outcome) (now : Nat) (acc : PassResult)
    (imgPath : String) : PassResult :=
  let r := processSingleImage acc.data imgPath (oc imgPath) now
  ⟨r.data, acc.changed || r.processed || r.failed, acc.calls + r.calls⟩

/-- processImagesParallel (catalog_processor.go lines 162-242): filter the
images through needsProcessing against the pre-pass index, return no change
when nothing is left, otherwise process every filtered image. -/
def processImagesParallel (currentData : Index) (imgs : List String)
    (oc : String → Outcome) (now : Nat) : PassResult :=
  if imgs = [] then ⟨currentData, false, 0⟩
  else
    let filtered := imgs.filter (fun i => needsProcessing currentData i)
    if filtered = [] then ⟨currentData, false, 0⟩
    else filtered.foldl (parStep oc now) ⟨currentData, false, 0⟩

/-- Base filenames of the found images, skipping the reserved literal names
exactly as the existingFiles loop does (catalog_processor.go lines 56-63). -/
def existingKeys (imgs : List String) : List String :=
  (imgs.filter (fun i => i != "index.json" && i != "index.md")).map filepathBase

/-- Keys surviving stale-entry removal (catalog_processor.go lines 67-78):
the reserved names are never removed, other keys survive iff a current image
file has that base name. -/
def keepEntry (keys : List String) (k : String) : Bool :=
  k == "index.json" || k == "index.md" || keys.contains k

/-- Stale-entry removal, returning the pruned index and whether anything was
removed (which alone counts as a change requiring persistence). -/
def staleRemove (currentData : Index) (keys : List String) : Index × Bool :=
  (currentData.filter (fun kv => keepEntry keys kv.1),
   currentData.any (fun kv => !(keepEntry keys kv.1)))

/-- Per-catalog summary for the global index. -/
structure CatalogData where
  image_count : Nat
  last_update : Nat
deriving DecidableEq, Repr

/-- createCatalogData (catalog_processor.go lines 137-159). The loop over the
records is written with an inverted type assertion: the branch body runs only
when the value is NOT an object, and then meta is the nil map, the
update_date lookup yields nil, and the iteration continues — so no record
ever raises lastUpdate above its initialization time.Now(). The fold mirrors
that branch structure. -/
def createCatalogData (currentData : Index) (now : Nat) : Option CatalogData :=
  if currentData = [] then none
  else
    some ⟨currentData.length,
      currentData.foldl
        (fun lastUpdate kv =>
          match kv.2 with
          | .record _ => lastUpdate
          | .malformed => lastUpdate)
        now⟩

/-- Everything ProcessDirectory does that is visible outside: the returned
catalog data (none signals the walker to omit the directory), whether the
existing index.json / index.md files were deleted, the index contents saved
to index.json (none when nothing was written), whether index.md was
regenerated, the in-memory index at the end of the pass, and the number of
AskLLM calls made. -/
structure DirResult where
  result : Option CatalogData
  deletedJson : Bool
  deletedMd : Bool
  saved : Option Index
  savedMd : Bool
  final : Index
  calls : Nat
deriving Repr

/-- Processing phase of ProcessDirectory (catalog_processor.go lines 80-103):
nothing to process when no images were found, otherwise the parallel or the
sequential loop according to ParallelRequests > 1. -/
def dirPass (currentData : Index) (imgs : List String) (parallel : Bool)
    (oc : String → Outcome) (now : Nat) : PassResult :=
  if imgs = [] then ⟨currentData, false, 0⟩
  else if parallel then processImagesParallel currentData imgs oc now
  else processImagesSeq currentData imgs oc now

/-- The currentData local of ProcessDirectory after stale-entry removal. -/
def prunedIndex (loaded : Index) (imgs : List String) : Index :=
  (staleRemove loaded (existingKeys imgs)).1

/-- The hasChanges flag set by stale-entry removal alone. -/
def pruneChanged (loaded : Index) (imgs : List String) : Bool :=
  (staleRemove loaded (existingKeys imgs)).2

/-- ProcessDirectory (catalog_processor.go lines 35-135), for a directory
whose loaded index.json decodes to loaded, whose FindImagesToProcess result
is imgs, given whether index.json / index.md currently exist and whether
ParallelRequests > 1. The Go locals currentData and hasChanges appear as
prunedIndex / dirPass data and pruneChanged / dirPass changed. Load and save
I/O errors are not modelled. -/
def processDirectory (loaded : Index) (imgs : List String)
    (jsonExists mdExists : Bool) (parallel : Bool) (oc : String → Outcome)
    (now : Nat) : DirResult :=
  if imgs = [] ∧ loaded = [] then
    ⟨none, false, false, none, false, loaded, 0⟩
  else if ((pruneChanged loaded imgs ||
        (dirPass (prunedIndex loaded imgs) imgs parallel oc now).changed) ||
      !jsonExists) ∧
      (dirPass (prunedIndex loaded imgs) imgs parallel oc now).data = [] then
    ⟨none, jsonExists, mdExists, none, false,
      (dirPass (prunedIndex loaded imgs) imgs parallel oc now).data,
      (dirPass (prunedIndex loaded imgs) imgs parallel oc now).calls⟩
  else
    ⟨createCatalogData (dirPass (prunedIndex loaded imgs) imgs parallel oc now).data now,
      false, false,
      some (dirPass (prunedIndex loaded imgs) imgs parallel oc now).data,
      !(dirPass (prunedIndex loaded imgs) imgs parallel oc now).data.isEmpty,
      (dirPass (prunedIndex loaded imgs) imgs parallel oc now).data,
      (dirPass (prunedIndex loaded imgs) imgs parallel oc now).calls⟩

/-- The entry that ProcessSingleImage stores for an image it processes:
a complete record on a valid response, the sentinel record otherwise. -/
def writtenEntry (imgPath : String) (oc : Outcome) (now : Nat) : IndexValue :=
  match oc with
  | .response s ds m =>
      if validateResponse (some ⟨s, ds⟩) then
        .record ⟨s, ds, filepathBase imgPath, m, now⟩
      else .record (errorRecord imgPath now)
  | _ => .record (errorRecord imgPath now)

/-- An analysis outcome that yields a valid response whose short name is not
the error sentinel (the design notes flag that a legitimately generated
short_name equal to the sentinel would be misread as a failure). -/
def goodOutcome : Outcome → Bool
  | .response s ds _ => s != "" && ds != "" && s != errorProcessingSentinel
  | _ => false

/-- The index holds, at key k, a record whose short_name is not the error
sentinel — exactly the entries a routine pass never re-selects. -/
def goodEntryAt (d : Index) (k : String) : Prop :=
  ∃ r : ImageRecord,
    lookupA d k = some (.record r) ∧ r.short_name ≠ errorProcessingSentinel

/-- What LoadExistingData returns on the next pass over the directory: the
saved index contents, or the empty index when nothing was saved (the file was
deleted, or an unchanged pre-existing file that had decoded to empty). -/
def loadAfter (r : DirResult) : Index := r.saved.getD []

/-- Whether index.json exists after the pass. -/
def jsonExistsAfter (r : DirResult) (old : Bool) : Bool :=
  if r.saved.isSome then true else if r.deletedJson then false else old

/-- Whether index.md exists after the pass. -/
def mdExistsAfter (r : DirResult) (old : Bool) : Bool :=
  if r.savedMd then true else if r.deletedMd then false else old

/-- Modelled from the spec: last_update = the maximum updated_at timestamp
across all of the index's records. -/
def specLastUpdate (currentData : Index) : Nat :=
  currentData.foldl
    (fun acc kv =>
      match kv.2 with
      | .record r => max acc r.update_date
      | .malformed => acc)
    0

/-- One directory visited by the catalog walk: its path relative to the walk
root and the on-disk state ProcessDirectory will see. -/
structure DirInput where
  relPath : String
  loaded : Index
  images : List String
  jsonExists : Bool
  mdExists : Bool

/-- The catalogs map accumulated by ProcessCatalog (processor.go lines
40-110) over the directories its walk visits, keyed by relative path with
each non-nil ProcessDirectory return value, and then serialized verbatim by
GenerateGlobalIndex (index_generator.go lines 104-119) into the root
index.json. -/
def processCatalogGlobal (dirs : List DirInput) (oc : String → String → Outcome)
    (now : Nat) : List (String × CatalogData) :=
  dirs.foldl
    (fun acc d =>
      match (processDirectory d.loaded d.images d.jsonExists d.mdExists true
          (oc d.relPath) now).result with
      | some cd => upsert acc d.relPath cd
      | none => acc)
    []

/-- Summaries of the index.json contents persisted by the walked directories
themselves during this walk (the index each pass saved, summarized by the
code's own createCatalogData). -/
def walkedPersistedAggregate (dirs : List DirInput) (oc : String → String → Outcome)
    (now : Nat) : List (String × CatalogData) :=
  dirs.foldl
    (fun acc d =>
      match (processDirectory d.loaded d.images d.jsonExists d.mdExists true
          (oc d.relPath) now).saved with
      | some idx =>
          match createCatalogData idx now with
          | some cd => upsert acc d.relPath cd
          | none => acc
      | none => acc)
    []

/-- Modelled from the spec: the GlobalIndex rebuilt standalone by aggregating
every subdirectory's persisted index.json (summarized with the code's own
createCatalogData), given the persisted index contents of every subdirectory
under the catalog root. -/
def globalFromPersisted (persisted : List (String × Index)) (now : Nat) :
    List (String × CatalogData) :=
  persisted.foldl
    (fun acc p =>
      match createCatalogData p.2 now with
      | some cd => upsert acc p.1 cd
      | none => acc)
    []

/-- JSON values, for the two decoding layers of AskLLM. -/
inductive Json where
  | null
  | bool (b : Bool)
  | num (n : Int)
  | str (s : String)
  | arr (elems : List Json)
  | obj (fields : List (String × Json))

/-- json.Unmarshal of a body into map[string]interface{}: an object gives its
fields, a JSON null leaves the map nil (every lookup then yields nil), any
other top-level value is an unmarshal error. -/
def jsonToMap : Json → Option (List (String × Json))
  | .obj fields => some fields
  | .null => some []
  | _ => none

/-- json.Unmarshal of one string-typed struct field: an absent field or a
JSON null leaves the zero value "", a string gives the string, any other
type is an unmarshal type error. -/
def unmarshalStringField (fields : List (String × Json)) (key : String) :
    Option String :=
  match lookupA fields key with
  | none => some ""
  | some .null => some ""
  | some (.str s) => some s
  | some _ => none

/-- json.Unmarshal of the content string's JSON value into llm.LLMResponse. -/
def unmarshalLLMResponse : Json → Option LLMResponse
  | .null => some ⟨"", ""⟩
  | .obj fields =>
      match unmarshalStringField fields "short_name",
          unmarshalStringField fields "description" with
      | some s, some d => some ⟨s, d⟩
      | _, _ => none
  | _ => none

/-- The distinct failure exits of AskLLM (llm.go lines 34-122). panicNotMap
marks the one place the code would panic instead of returning an error: the
single-value type assertion choices[0].(map[string]interface{}). -/
inductive AskError where
  | network
  | status (code : Nat)
  | readBody
  | unmarshalBody
  | choicesFormat
  | panicNotMap
  | messageFormat
  | contentFormat
  | parseContent
deriving DecidableEq, Repr

/-- Reading the HTTP response body: io.ReadAll may fail, json.Unmarshal may
fail, or the body parses to a JSON value. -/
inductive BodyRead where
  | readError
  | malformed
  | parsed (j : Json)

/-- The observable result of the HTTP round trip performed by AskLLM. -/
inductive HttpResult where
  | netError
  | response (status : Nat) (body : BodyRead)

/-- Extraction of the content string from the decoded body (llm.go lines
95-108): choices must be a non-empty array, choices[0] must be an object (a
failing single-value type assertion here is the one panic site), its message
must be an object and its content a string. -/
def extractContent (fields : List (String × Json)) : Except AskError String :=
  match lookupA fields "choices" with
  | some (.arr (c0 :: _)) =>
      match c0 with
      | .obj m0 =>
          match lookupA m0 "message" with
          | some (.obj msg) =>
              match lookupA msg "content" with
              | some (.str content) => .ok content
              | _ => .error .contentFormat
          | _ => .error .messageFormat
      | _ => .error .panicNotMap
  | _ => .error .choicesFormat

/-- The model name of the response (llm.go lines 116-119): the model field
when it is a string, empty otherwise. -/
def modelNameOf (fields : List (String × Json)) : String :=
  match lookupA fields "model" with
  | some (.str m) => m
  | _ => ""

/-- AskLLM's handling of the HTTP result (llm.go lines 73-122). The JSON
parse of the inner content string is an external library call and is passed
as a parameter; the code only branches on whether it succeeds and on the
decoded value. -/
def askLLM (r : HttpResult) (parseContent : String → Option Json) :
    Except AskError (LLMResponse × String) :=
  match r with
  | .netError => .error .network
  | .response status body =>
      if status ≠ 200 then .error (.status status)
      else
        match body with
        | .readError => .error .readBody
        | .malformed => .error .unmarshalBody
        | .parsed j =>
            match jsonToMap j with
            | none => .error .unmarshalBody
            | some fields =>
                match extractContent fields with
                | .error e => .error e
                | .ok content =>
                    match parseContent content with
                    | none => .error .parseContent
                    | some cj =>
                        match unmarshalLLMResponse cj with
                        | none => .error .parseContent
                        | some resp => .ok (resp, modelNameOf fields)

/-- ReindexTask (queue.go lines 15-19), with CreatedAt abstracted to an
instant. -/
structure ReindexTask where
  catalogName : String
  source : String
  createdAt : Nat
deriving DecidableEq, Repr

/-- Capacity of the buffered tasks channel (queue.go line 39). -/
def queueCapacity : Nat := 100

/-- Observable queue state: the isRunning flag and the tasks buffered in the
channel, in arrival order. -/
structure QueueState where
  running : Bool
  buffer : List ReindexTask
deriving DecidableEq, Repr

/-- AddTask (queue.go lines 100-126): a stopped queue drops the task and
returns nil; a running queue performs a non-blocking send that enqueues when
the buffer has room and otherwise drops the task; every path returns nil.
The returned option is the returned error. -/
def addTask (q : QueueState) (catalogName source : String) (now : Nat) :
    QueueState × Option String :=
  if !q.running then (q, none)
  else if q.buffer.length < queueCapacity then
    (⟨q.running, q.buffer ++ [⟨catalogName, source, now⟩]⟩, none)
  else (q, none)

/-- A burst of AddTask calls while the worker consumes nothing (the single
worker is blocked, so no receive happens between the sends). -/
def addTasks (q : QueueState) (ts : List (String × String × Nat)) : QueueState :=
  ts.foldl (fun s t => (addTask s t.1 t.2.1 t.2.2).1) q

/-- Phase of one worker goroutine of processImagesParallel: not yet past the
select, holding the semaphore with its ProcessSingleImage call in flight, or
finished. -/
inductive GoPhase where
  | idle
  | inflight
  | finished
deriving DecidableEq, Repr

/-- State of one parallel pass: the phase of each spawned goroutine and the
number of tokens buffered in the semaphore channel of capacity K. -/
structure SemState where
  phases : List GoPhase
  tokens : Nat
deriving Repr

/-- Number of Analysis Client calls currently in flight. -/
def countInflight (s : SemState) : Nat :=
  s.phases.countP (fun p => p == GoPhase.inflight)

/-- Initial state: n goroutines spawned, none past the select, the semaphore
channel empty. -/
def initState (n : Nat) : SemState :=
  ⟨List.replicate n GoPhase.idle, 0⟩

/-- One interleaving step of the parallel pass (catalog_processor.go lines
185-227). acquire: the send semaphore <- struct{}{} completes only when
fewer than K tokens are buffered, and the goroutine's ProcessSingleImage
call is then in flight. finish: the call returns and the deferred
non-blocking receive removes a token when one is buffered (Nat subtraction
is the no-op default branch at zero). abort: the ctx.Done branch ends the
goroutine without acquiring or calling. -/
inductive SemStep (K : Nat) : SemState → SemState → Prop where
  | acquire (s : SemState) (i : Nat) (h : s.phases.get? i = some .idle)
      (hk : s.tokens < K) :
      SemStep K s ⟨s.phases.set i .inflight, s.tokens + 1⟩
  | finish (s : SemState) (i : Nat) (h : s.phases.get? i = some .inflight) :
      SemStep K s ⟨s.phases.set i .finished, s.tokens - 1⟩
  | abort (s : SemState) (i : Nat) (h : s.phases.get? i = some .idle) :
      SemStep K s ⟨s.phases.set i .finished, s.tokens⟩

/-- States reachable by any interleaving of a pass with n goroutines. -/
inductive SemReach (K n : Nat) : SemState → Prop where
  | init : SemReach K n (initState n)
  | step (s s' : SemState) (hr : SemReach K n s) (hs : SemStep K s s') :
      SemReach K n s'

/-- One entry of os.ReadDir output: name and whether it is a directory. -/
structure DirEntry where
  name : String
  isDir : Bool

/-- HasImages (file_scanner.go lines 24-42): true iff some direct child
non-directory entry's extension, lowercased, equals some configured
extension, lowercased. -/
def hasImages (supportedExtensions : List String) (entries : List DirEntry) :
    Bool :=
  entries.any (fun e =>
    !e.isDir &&
      supportedExtensions.any (fun ext => strLower (extOf e.name) == strLower ext))

/-- FindImagesToProcess (file_scanner.go lines 44-72): for each configured
extension ext, collect the names matching the glob *ext and then the names
matching the glob *EXT, where EXT uppercases ext without its leading byte
(ext[1:]); finally drop the reserved index names. files are the directory's
child names; glob ordering within each pattern does not affect membership.
The exclusion filter is skipped when no exclude patterns are configured. -/
def findImagesToProcess (supportedExtensions : List String)
    (files : List String) : List String :=
  let images := supportedExtensions.foldl
    (fun acc ext =>
      (acc ++ files.filter (fun n => strEndsWith n ext)) ++
        files.filter (fun n => strEndsWith n (extUpperTail ext)))
    []
  images.filter (fun n => n != "index.json" && n != "index.md")

/-- Claim C1: the needs-processing predicate holds iff the index has no entry
for the image's base filename, or the existing entry's short_name field equals
"error_processing"; an entry with any other short_name (or with no short_name
string at all) is never selected for reprocessing. -/
theorem needsProcessing_iff (currentData : Index) (imgPath : String) :
    needsProcessing currentData imgPath = true ↔
      (lookupA currentData (filepathBase imgPath) = none ∨
        ∃ r : ImageRecord,
          lookupA currentData (filepathBase imgPath) = some (.record r) ∧
            r.short_name = "error_processing") := by
  unfold needsProcessing
  cases h : lookupA currentData (filepathBase imgPath) with
  | none => simp
  | some v =>
      cases v with
      | record r =>
          simp only [errorProcessingSentinel, decide_eq_true_eq]
          constructor
          · intro hr
            exact Or.inr ⟨r, rfl, hr⟩
          · rintro (hc | ⟨r', hr', hs⟩)
            · exact absurd hc (by simp)
            · cases hr'
              exact hs
      | malformed => simp

theorem lookupA_nil {α : Type} (k : String) : lookupA ([] : List (String × α)) k = none := rfl

theorem lookupA_upsert_self {α : Type} (l : List (String × α)) (k : String) (v : α) :
    lookupA (upsert l k v) k = some v := by
  induction l with
  | nil => simp [upsert, lookupA]
  | cons kv t ih =>
      by_cases hk : kv.1 = k
      · simp [upsert, hk, lookupA]
      · simpa [upsert, hk, lookupA] using ih

theorem lookupA_upsert_ne {α : Type} (l : List (String × α)) (k k' : String) (v : α)
    (h : k' ≠ k) : lookupA (upsert l k v) k' = lookupA l k' := by
  have hks : ¬(k = k') := fun hh => h hh.symm
  induction l with
  | nil => simp [upsert, lookupA, hks]
  | cons kv t ih =>
      by_cases hk : kv.1 = k
      · subst hk
        simp [upsert, lookupA, hks]
      · simp only [upsert, if_neg hk, lookupA]
        by_cases hk' : kv.1 = k'
        · simp [hk']
        · simp [hk', ih]

theorem upsert_ne_nil {α : Type} (l : List (String × α)) (k : String) (v : α) :
    upsert l k v ≠ [] := by
  cases l with
  | nil => simp [upsert]
  | cons kv t =>
      by_cases hk : kv.1 = k <;> simp [upsert, hk]

theorem mem_upsert {α : Type} (l : List (String × α)) (k : String) (v : α) :
    ∀ kv ∈ upsert l k v, kv = (k, v) ∨ kv ∈ l := by
  induction l with
  | nil => simp [upsert]
  | cons hd t ih =>
      intro kv hkv
      by_cases hk : hd.1 = k
      · simp only [upsert, if_pos hk, List.mem_cons] at hkv
        rcases hkv with rfl | h
        · exact Or.inl rfl
        · exact Or.inr (List.mem_cons_of_mem _ h)
      · simp only [upsert, if_neg hk, List.mem_cons] at hkv
        rcases hkv with rfl | h
        · exact Or.inr (List.mem_cons_self _ _)
        · rcases ih kv h with h' | h'
          · exact Or.inl h'
          · exact Or.inr (List.mem_cons_of_mem _ h')

theorem needsProcessing_congr (d d' : Index) (img : String)
    (h : lookupA d (filepathBase img) = lookupA d' (filepathBase img)) :
    needsProcessing d img = needsProcessing d' img := by
  unfold needsProcessing
  rw [h]

theorem needsProcessing_eq_of_base (d : Index) (i j : String)
    (h : filepathBase j = filepathBase i) :
    needsProcessing d j = needsProcessing d i := by
  unfold needsProcessing
  rw [h]

theorem lookupA_isSome_of_not_needs (d : Index) (img : String)
    (h : needsProcessing d img = false) :
    (lookupA d (filepathBase img)).isSome := by
  unfold needsProcessing at h
  cases hl : lookupA d (filepathBase img) with
  | none => rw [hl] at h; simp at h
  | some v => simp

theorem ne_nil_of_lookupA_isSome (d : Index) (k : String)
    (h : (lookupA d k).isSome) : d ≠ [] := by
  intro hd
  subst hd
  simp [lookupA] at h

theorem psi_data_of_needs (d : Index) (img : String) (oc : Outcome) (now : Nat)
    (h : needsProcessing d img = true) :
    (processSingleImage d img oc now).data =
      upsert d (filepathBase img) (writtenEntry img oc now) := by
  unfold processSingleImage writtenEntry
  rw [if_pos h]
  cases oc with
  | encodeError => rfl
  | llmError => rfl
  | response s ds m =>
      by_cases hv : validateResponse (some ⟨s, ds⟩) = true
      · simp [hv]
      · simp [hv]

theorem psi_data_of_not_needs (d : Index) (img : String) (oc : Outcome) (now : Nat)
    (h : needsProcessing d img = false) :
    (processSingleImage d img oc now).data = d := by
  unfold processSingleImage
  rw [if_neg (by simp [h])]

theorem psi_data_ne_nil (d : Index) (img : String) (oc : Outcome) (now : Nat) :
    (processSingleImage d img oc now).data ≠ [] := by
  by_cases h : needsProcessing d img = true
  · rw [psi_data_of_needs d img oc now h]
    exact upsert_ne_nil _ _ _
  · have hf : needsProcessing d img = false := Bool.eq_false_iff.mpr h
    rw [psi_data_of_not_needs d img oc now hf]
    exact ne_nil_of_lookupA_isSome d _ (lookupA_isSome_of_not_needs d img hf)

theorem psi_lookup_ne (d : Index) (img : String) (oc : Outcome) (now : Nat)
    (k : String) (h : filepathBase img ≠ k) :
    lookupA (processSingleImage d img oc now).data k = lookupA d k := by
  by_cases hn : needsProcessing d img = true
  · rw [psi_data_of_needs d img oc now hn]
    exact lookupA_upsert_ne _ _ _ _ (Ne.symm h)
  · rw [psi_data_of_not_needs d img oc now (Bool.eq_false_iff.mpr hn)]

theorem parStep_data (oc : String → Outcome) (now : Nat) (acc : PassResult)
    (img : String) :
    (parStep oc now acc img).data = (processSingleImage acc.data img (oc img) now).data := rfl

theorem par_fold_lookup_ne (oc : String → Outcome) (now : Nat) (k : String) :
    ∀ (l : List String) (acc : PassResult), (∀ j ∈ l, filepathBase j ≠ k) →
      lookupA (l.foldl (parStep oc now) acc).data k = lookupA acc.data k := by
  intro l
  induction l with
  | nil => intro acc _; rfl
  | cons j t ih =>
      intro acc hj
      simp only [List.foldl_cons]
      rw [ih _ (fun x hx => hj x (List.mem_cons_of_mem _ hx))]
      rw [parStep_data]
      exact psi_lookup_ne _ _ _ _ _ (hj j (List.mem_cons_self _ _))

theorem par_fold_lookup_mem (oc : String → Outcome) (now : Nat) (img : String) :
    ∀ (l : List String) (acc : PassResult), img ∈ l →
      (l.map filepathBase).Nodup → needsProcessing acc.data img = true →
      lookupA (l.foldl (parStep oc now) acc).data (filepathBase img) =
        some (writtenEntry img (oc img) now) := by
  intro l
  induction l with
  | nil => intro acc h; cases h
  | cons j t ih =>
      intro acc hmem hnd hneeds
      simp only [List.map_cons, List.nodup_cons] at hnd
      obtain ⟨hj_notin, hnd_t⟩ := hnd
      rcases List.mem_cons.mp hmem with rfl | hmem_t
      · simp only [List.foldl_cons]
        have hnot : ∀ x ∈ t, filepathBase x ≠ filepathBase img := by
          intro x hx heq
          exact hj_notin (heq ▸ List.mem_map_of_mem filepathBase hx)
        rw [par_fold_lookup_ne oc now _ t _ hnot, parStep_data,
          psi_data_of_needs _ _ _ _ hneeds, lookupA_upsert_self]
      · have hbase : filepathBase j ≠ filepathBase img := fun heq =>
          hj_notin (heq ▸ List.mem_map_of_mem filepathBase hmem_t)
        simp only [List.foldl_cons]
        apply ih _ hmem_t hnd_t
        have hl : lookupA (parStep oc now acc j).data (filepathBase img) =
            lookupA acc.data (filepathBase img) := by
          rw [parStep_data]
          exact psi_lookup_ne _ _ _ _ _ hbase
        rw [needsProcessing_congr _ acc.data img hl]
        exact hneeds

theorem par_fold_data_ne_nil_of_acc (oc : String → Outcome) (now : Nat) :
    ∀ (l : List String) (acc : PassResult), acc.data ≠ [] →
      (l.foldl (parStep oc now) acc).data ≠ [] := by
  intro l
  induction l with
  | nil => intro acc h; exact h
  | cons j t ih =>
      intro acc _
      simp only [List.foldl_cons]
      exact ih _ (by rw [parStep_data]; exact psi_data_ne_nil _ _ _ _)

theorem par_fold_data_ne_nil (oc : String → Outcome) (now : Nat)
    (l : List String) (acc : PassResult) (h : l ≠ []) :
    (l.foldl (parStep oc now) acc).data ≠ [] := by
  cases l with
  | nil => exact absurd rfl h
  | cons j t =>
      simp only [List.foldl_cons]
      exact par_fold_data_ne_nil_of_acc oc now t _
        (by rw [parStep_data]; exact psi_data_ne_nil _ _ _ _)

theorem writtenEntry_good (img : String) (oc : Outcome) (now : Nat)
    (hoc : goodOutcome oc = true) :
    ∃ r : ImageRecord, writtenEntry img oc now = .record r ∧
      r.short_name ≠ errorProcessingSentinel := by
  cases oc with
  | encodeError => simp [goodOutcome] at hoc
  | llmError => simp [goodOutcome] at hoc
  | response s ds m =>
      simp only [goodOutcome, Bool.and_eq_true, bne_iff_ne] at hoc
      obtain ⟨⟨hs, hd⟩, hsent⟩ := hoc
      refine ⟨⟨s, ds, filepathBase img, m, now⟩, ?_, hsent⟩
      simp [writtenEntry, validateResponse, hs, hd]

theorem goodEntryAt_psi (d : Index) (img : String) (oc : Outcome) (now : Nat)
    (k : String) (hoc : goodOutcome oc = true) (h : goodEntryAt d k) :
    goodEntryAt (processSingleImage d img oc now).data k := by
  by_cases hn : needsProcessing d img = true
  · by_cases hk : filepathBase img = k
    · subst hk
      obtain ⟨r, hr, hs⟩ := writtenEntry_good img oc now hoc
      exact ⟨r, by rw [psi_data_of_needs d img oc now hn, lookupA_upsert_self, hr], hs⟩
    · obtain ⟨r, hr, hs⟩ := h
      refine ⟨r, ?_, hs⟩
      rw [psi_data_of_needs d img oc now hn, lookupA_upsert_ne _ _ _ _ (Ne.symm hk)]
      exact hr
  · obtain ⟨r, hr, hs⟩ := h
    refine ⟨r, ?_, hs⟩
    rw [psi_data_of_not_needs d img oc now (Bool.eq_false_iff.mpr hn)]
    exact hr

theorem par_fold_preserves_good (oc : String → Outcome) (now : Nat) (k : String) :
    ∀ (l : List String) (acc : PassResult), (∀ j ∈ l, goodOutcome (oc j) = true) →
      goodEntryAt acc.data k → goodEntryAt (l.foldl (parStep oc now) acc).data k := by
  intro l
  induction l with
  | nil => intro acc _ h; exact h
  | cons j t ih =>
      intro acc hg h
      simp only [List.foldl_cons]
      apply ih _ (fun x hx => hg x (List.mem_cons_of_mem _ hx))
      show goodEntryAt (parStep oc now acc j).data k
      rw [parStep_data]
      exact goodEntryAt_psi _ _ _ _ _ (hg j (List.mem_cons_self _ _)) h

theorem par_fold_good (oc : String → Outcome) (now : Nat) :
    ∀ (l : List String) (acc : PassResult),
      (∀ j ∈ l, goodOutcome (oc j) = true) →
      (∀ j ∈ l, needsProcessing acc.data j = true ∨
        goodEntryAt acc.data (filepathBase j)) →
      ∀ j ∈ l, goodEntryAt ((l.foldl (parStep oc now) acc)).data (filepathBase j) := by
  intro l
  induction l with
  | nil => intro acc _ _ j hj; cases hj
  | cons i t ih =>
      intro acc hg hd j hj
      have hgi : goodOutcome (oc i) = true := hg i (List.mem_cons_self _ _)
      have hgoodStep : goodEntryAt (parStep oc now acc i).data (filepathBase i) := by
        rw [parStep_data]
        rcases hd i (List.mem_cons_self _ _) with hni | hgood
        · obtain ⟨r, hr, hs⟩ := writtenEntry_good i (oc i) now hgi
          exact ⟨r, by rw [psi_data_of_needs _ _ _ _ hni, lookupA_upsert_self, hr], hs⟩
        · exact goodEntryAt_psi _ _ _ _ _ hgi hgood
      have hrest : ∀ x ∈ t, needsProcessing (parStep oc now acc i).data x = true ∨
          goodEntryAt (parStep oc now acc i).data (filepathBase x) := by
        intro x hx
        by_cases hb : filepathBase i = filepathBase x
        · exact Or.inr (hb ▸ hgoodStep)
        · rcases hd x (List.mem_cons_of_mem _ hx) with hnx | hgx
          · refine Or.inl ?_
            have hl : lookupA (parStep oc now acc i).data (filepathBase x) =
                lookupA acc.data (filepathBase x) := by
              rw [parStep_data]
              exact psi_lookup_ne _ _ _ _ _ hb
            rw [needsProcessing_congr _ acc.data x hl]
            exact hnx
          · exact Or.inr (goodEntryAt_psi _ _ _ _ _ hgi hgx)
      simp only [List.foldl_cons]
      rcases List.mem_cons.mp hj with rfl | hjt
      · exact par_fold_preserves_good oc now _ t _
          (fun x hx => hg x (List.mem_cons_of_mem _ hx)) hgoodStep
      · exact ih _ (fun x hx => hg x (List.mem_cons_of_mem _ hx)) hrest j hjt

theorem needsProcessing_false_of_good (d : Index) (i : String)
    (h : goodEntryAt d (filepathBase i)) : needsProcessing d i = false := by
  obtain ⟨r, hr, hs⟩ := h
  unfold needsProcessing
  rw [hr]
  simp [hs]

theorem staleRemove_changed_of_empty (d : Index) (keys : List String)
    (hne : d ≠ []) (hemp : (staleRemove d keys).1 = []) :
    (staleRemove d keys).2 = true := by
  have hall : ∀ kv ∈ d, ¬(keepEntry keys kv.1 = true) :=
    List.filter_eq_nil.mp hemp
  cases d with
  | nil => exact absurd rfl hne
  | cons kv t =>
      show (kv :: t).any (fun x => !(keepEntry keys x.1)) = true
      refine List.any_eq_true.mpr ⟨kv, List.mem_cons_self _ _, ?_⟩
      simpa using hall kv (List.mem_cons_self _ _)

theorem staleRemove_noop (d : Index) (keys : List String)
    (h : ∀ kv ∈ d, keepEntry keys kv.1 = true) :
    staleRemove d keys = (d, false) := by
  unfold staleRemove
  rw [List.filter_eq_self.mpr h]
  rw [List.any_eq_false.mpr (by intro kv hkv; simp [h kv hkv])]

theorem mem_staleRemove_keep (d : Index) (keys : List String) :
    ∀ kv ∈ (staleRemove d keys).1, keepEntry keys kv.1 = true := by
  intro kv hkv
  have h : kv ∈ d.filter (fun x => keepEntry keys x.1) := hkv
  simpa using (List.mem_filter.mp h).2

theorem mem_staleRemove_orig (d : Index) (keys : List String) :
    ∀ kv ∈ (staleRemove d keys).1, kv ∈ d := by
  intro kv hkv
  have h : kv ∈ d.filter (fun x => keepEntry keys x.1) := hkv
  exact (List.mem_filter.mp h).1

theorem data_ne_nil_of_filter_needs_empty (d : Index) (imgs : List String)
    (hne : imgs ≠ [])
    (hf : imgs.filter (fun i => needsProcessing d i) = []) : d ≠ [] := by
  cases imgs with
  | nil => exact absurd rfl hne
  | cons i t =>
      have hni : needsProcessing d i = false := by
        have := List.filter_eq_nil.mp hf i (List.mem_cons_self _ _)
        simpa using this
      exact ne_nil_of_lookupA_isSome d _ (lookupA_isSome_of_not_needs d i hni)

theorem processImagesParallel_of_filter_nil (d : Index) (imgs : List String)
    (oc : String → Outcome) (now : Nat)
    (hf : imgs.filter (fun i => needsProcessing d i) = []) :
    processImagesParallel d imgs oc now = ⟨d, false, 0⟩ := by
  unfold processImagesParallel
  by_cases h : imgs = []
  · rw [if_pos h]
  · rw [if_neg h]
    simp [hf]

theorem processImagesParallel_data_ne_nil (d : Index) (imgs : List String)
    (oc : String → Outcome) (now : Nat) (himgs : imgs ≠ []) :
    (processImagesParallel d imgs oc now).data ≠ [] := by
  by_cases hf : imgs.filter (fun i => needsProcessing d i) = []
  · rw [processImagesParallel_of_filter_nil d imgs oc now hf]
    exact data_ne_nil_of_filter_needs_empty d imgs himgs hf
  · unfold processImagesParallel
    rw [if_neg himgs]
    simp only [if_neg hf]
    exact par_fold_data_ne_nil oc now _ _ hf

theorem needs_false_after_good_run (d : Index) (imgs : List String)
    (oc : String → Outcome) (now : Nat)
    (hg : ∀ j ∈ imgs, goodOutcome (oc j) = true) :
    ∀ i ∈ imgs,
      needsProcessing (processImagesParallel d imgs oc now).data i = false := by
  intro i hi
  have himgs : imgs ≠ [] := by rintro rfl; cases hi
  by_cases hf : imgs.filter (fun x => needsProcessing d x) = []
  · rw [processImagesParallel_of_filter_nil d imgs oc now hf]
    have := List.filter_eq_nil.mp hf i hi
    simpa using this
  · unfold processImagesParallel
    rw [if_neg himgs]
    simp only [if_neg hf]
    by_cases hni : needsProcessing d i = true
    · have hmemf : i ∈ imgs.filter (fun x => needsProcessing d x) :=
        List.mem_filter.mpr ⟨hi, hni⟩
      have hgood := par_fold_good oc now
        (imgs.filter (fun x => needsProcessing d x)) ⟨d, false, 0⟩
        (fun x hx => hg x (List.mem_filter.mp hx).1)
        (fun x hx => Or.inl (by simpa using (List.mem_filter.mp hx).2))
        i hmemf
      exact needsProcessing_false_of_good _ i hgood
    · have hnf : needsProcessing d i = false := Bool.eq_false_iff.mpr hni
      have hnot : ∀ j ∈ imgs.filter (fun x => needsProcessing d x),
          filepathBase j ≠ filepathBase i := by
        intro j hj heq
        have hjt : needsProcessing d j = true := by
          simpa using (List.mem_filter.mp hj).2
        rw [needsProcessing_eq_of_base d i j heq] at hjt
        exact hni hjt
      have hl := par_fold_lookup_ne oc now (filepathBase i)
        (imgs.filter (fun x => needsProcessing d x)) ⟨d, false, 0⟩ hnot
      rw [needsProcessing_congr _ d i hl]
      exact hnf

theorem par_fold_keys (oc : String → Outcome) (now : Nat) :
    ∀ (l : List String) (acc : PassResult) (kv : String × IndexValue),
      kv ∈ (l.foldl (parStep oc now) acc).data →
      kv ∈ acc.data ∨ ∃ j ∈ l, kv.1 = filepathBase j := by
  intro l
  induction l with
  | nil => intro acc kv h; exact Or.inl h
  | cons j t ih =>
      intro acc kv h
      simp only [List.foldl_cons] at h
      rcases ih _ kv h with hmem | ⟨x, hx, hbx⟩
      · rw [parStep_data] at hmem
        by_cases hn : needsProcessing acc.data j = true
        · rw [psi_data_of_needs _ _ _ _ hn] at hmem
          rcases mem_upsert _ _ _ kv hmem with rfl | hmem'
          · exact Or.inr ⟨j, List.mem_cons_self _ _, rfl⟩
          · exact Or.inl hmem'
        · rw [psi_data_of_not_needs _ _ _ _ (Bool.eq_false_iff.mpr hn)] at hmem
          exact Or.inl hmem
      · exact Or.inr ⟨x, List.mem_cons_of_mem _ hx, hbx⟩

theorem keep_base_of_mem (imgs : List String) (j : String) (hj : j ∈ imgs) :
    keepEntry (existingKeys imgs) (filepathBase j) = true := by
  by_cases h1 : filepathBase j = "index.json"
  · simp [keepEntry, h1]
  · by_cases h2 : filepathBase j = "index.md"
    · simp [keepEntry, h2]
    · have hj1 : j ≠ "index.json" := by
        intro hh
        exact h1 (by rw [hh]; decide)
      have hj2 : j ≠ "index.md" := by
        intro hh
        exact h2 (by rw [hh]; decide)
      have hmem : filepathBase j ∈ existingKeys imgs := by
        unfold existingKeys
        exact List.mem_map_of_mem filepathBase
          (List.mem_filter.mpr ⟨hj, by simp [hj1, hj2]⟩)
      simp only [keepEntry, Bool.or_eq_true, beq_iff_eq, List.contains_eq_any_beq]
      exact Or.inr (List.any_eq_true.mpr ⟨filepathBase j, hmem, by simp⟩)

theorem seqStep_data_cases (oc : String → Outcome) (now : Nat)
    (acc : PassResult) (img : String) :
    (seqStep oc now acc img).data = acc.data ∨
      (seqStep oc now acc img).data =
        (processSingleImage acc.data img (oc img) now).data := by
  unfold seqStep
  by_cases hskip : (img == "index.json" || img == "index.md") = true
  · rw [if_pos hskip]
    exact Or.inl rfl
  · rw [if_neg hskip]
    by_cases hf : (processSingleImage acc.data img (oc img) now).failed = true
    · rw [if_pos hf]
      exact Or.inr rfl
    · rw [if_neg hf]
      exact Or.inr rfl

theorem seq_fold_data_ne_nil_of_acc (oc : String → Outcome) (now : Nat) :
    ∀ (l : List String) (acc : PassResult), acc.data ≠ [] →
      (l.foldl (seqStep oc now) acc).data ≠ [] := by
  intro l
  induction l with
  | nil => intro acc h; exact h
  | cons j t ih =>
      intro acc h
      simp only [List.foldl_cons]
      apply ih
      rcases seqStep_data_cases oc now acc j with he | he
      · rw [he]; exact h
      · rw [he]; exact psi_data_ne_nil _ _ _ _

theorem processImagesSeq_data_ne_nil (d : Index) (imgs : List String)
    (oc : String → Outcome) (now : Nat) (himgs : imgs ≠ [])
    (hbase : ∀ i ∈ imgs,
      filepathBase i ≠ "index.json" ∧ filepathBase i ≠ "index.md") :
    (processImagesSeq d imgs oc now).data ≠ [] := by
  cases imgs with
  | nil => exact absurd rfl himgs
  | cons i t =>
      have hi := hbase i (List.mem_cons_self _ _)
      have h1 : i ≠ "index.json" := fun hh => hi.1 (by rw [hh]; decide)
      have h2 : i ≠ "index.md" := fun hh => hi.2 (by rw [hh]; decide)
      unfold processImagesSeq
      simp only [List.foldl_cons]
      apply seq_fold_data_ne_nil_of_acc
      unfold seqStep
      rw [if_neg (by simp [h1, h2])]
      by_cases hf : (processSingleImage (⟨d, false, 0⟩ : PassResult).data i
          (oc i) now).failed = true
      · rw [if_pos hf]
        exact psi_data_ne_nil _ _ _ _
      · rw [if_neg hf]
        exact psi_data_ne_nil _ _ _ _

theorem dirPass_parallel (d : Index) (imgs : List String)
    (oc : String → Outcome) (now : Nat) :
    dirPass d imgs true oc now = processImagesParallel d imgs oc now := by
  unfold dirPass
  by_cases h : imgs = []
  · rw [if_pos h]
    unfold processImagesParallel
    rw [if_pos h]
  · rw [if_neg h, if_pos rfl]

theorem dirPass_data_ne_nil (d : Index) (imgs : List String) (par : Bool)
    (oc : String → Outcome) (now : Nat) (himgs : imgs ≠ [])
    (hbase : ∀ i ∈ imgs,
      filepathBase i ≠ "index.json" ∧ filepathBase i ≠ "index.md") :
    (dirPass d imgs par oc now).data ≠ [] := by
  unfold dirPass
  rw [if_neg himgs]
  cases par with
  | true =>
      rw [if_pos rfl]
      exact processImagesParallel_data_ne_nil d imgs oc now himgs
  | false =>
      rw [if_neg (by decide)]
      exact processImagesSeq_data_ne_nil d imgs oc now himgs hbase

theorem dirPass_empty_imgs (d : Index) (par : Bool) (oc : String → Outcome)
    (now : Nat) : dirPass d [] par oc now = ⟨d, false, 0⟩ := by
  unfold dirPass
  rw [if_pos rfl]

theorem processDirectory_final (loaded : Index) (imgs : List String)
    (jsonE mdE par : Bool) (oc : String → Outcome) (now : Nat)
    (h : ¬(imgs = [] ∧ loaded = [])) :
    (processDirectory loaded imgs jsonE mdE par oc now).final =
      (dirPass (prunedIndex loaded imgs) imgs par oc now).data := by
  unfold processDirectory
  rw [if_neg h]
  split <;> rfl

theorem processDirectory_calls (loaded : Index) (imgs : List String)
    (jsonE mdE par : Bool) (oc : String → Outcome) (now : Nat)
    (h : ¬(imgs = [] ∧ loaded = [])) :
    (processDirectory loaded imgs jsonE mdE par oc now).calls =
      (dirPass (prunedIndex loaded imgs) imgs par oc now).calls := by
  unfold processDirectory
  rw [if_neg h]
  split <;> rfl

theorem processDirectory_save (loaded : Index) (imgs : List String)
    (jsonE mdE par : Bool) (oc : String → Outcome) (now : Nat)
    (h : ¬(imgs = [] ∧ loaded = []))
    (hne : (dirPass (prunedIndex loaded imgs) imgs par oc now).data ≠ []) :
    processDirectory loaded imgs jsonE mdE par oc now =
      ⟨createCatalogData (dirPass (prunedIndex loaded imgs) imgs par oc now).data now,
        false, false,
        some (dirPass (prunedIndex loaded imgs) imgs par oc now).data,
        !(dirPass (prunedIndex loaded imgs) imgs par oc now).data.isEmpty,
        (dirPass (prunedIndex loaded imgs) imgs par oc now).data,
        (dirPass (prunedIndex loaded imgs) imgs par oc now).calls⟩ := by
  unfold processDirectory
  rw [if_neg h, if_neg (fun hc => hne hc.2)]

theorem processImagesParallel_keys (d : Index) (imgs : List String)
    (oc : String → Outcome) (now : Nat) :
    ∀ kv ∈ (processImagesParallel d imgs oc now).data,
      kv ∈ d ∨ ∃ j ∈ imgs, kv.1 = filepathBase j := by
  intro kv hkv
  by_cases hf : imgs.filter (fun i => needsProcessing d i) = []
  · rw [processImagesParallel_of_filter_nil d imgs oc now hf] at hkv
    exact Or.inl hkv
  · have himgs : imgs ≠ [] := by
      rintro rfl
      exact hf rfl
    unfold processImagesParallel at hkv
    rw [if_neg himgs] at hkv
    simp only [if_neg hf] at hkv
    rcases par_fold_keys oc now _ _ kv hkv with h | ⟨j, hj, hbj⟩
    · exact Or.inl h
    · exact Or.inr ⟨j, (List.mem_filter.mp hj).1, hbj⟩

theorem processImagesParallel_of_all_not_needs (d : Index) (imgs : List String)
    (oc : String → Outcome) (now : Nat)
    (h : ∀ i ∈ imgs, needsProcessing d i = false) :
    processImagesParallel d imgs oc now = ⟨d, false, 0⟩ :=
  processImagesParallel_of_filter_nil d imgs oc now
    (List.filter_eq_nil_iff.mpr (fun i hi => by simp [h i hi]))

theorem prunedIndex_keep (loaded : Index) (imgs : List String) :
    ∀ kv ∈ prunedIndex loaded imgs, keepEntry (existingKeys imgs) kv.1 = true :=
  mem_staleRemove_keep loaded (existingKeys imgs)

theorem staleRemove_noop_on_pass_output (loaded : Index) (imgs : List String)
    (oc : String → Outcome) (now1 : Nat) :
    staleRemove (processImagesParallel (prunedIndex loaded imgs) imgs oc now1).data
        (existingKeys imgs) =
      ((processImagesParallel (prunedIndex loaded imgs) imgs oc now1).data, false) := by
  apply staleRemove_noop
  intro kv hkv
  rcases processImagesParallel_keys (prunedIndex loaded imgs) imgs oc now1 kv hkv
    with h | ⟨j, hj, hbj⟩
  · exact prunedIndex_keep loaded imgs kv h
  · rw [hbj]
    exact keep_base_of_mem imgs j hj

/-- Claim C2: within one pass, every image that needs processing gets an
entry written under its base filename: writtenEntry is the complete success
record (short_name, description, original_name, model, current timestamp)
exactly when the analysis outcome is a valid response, and the
error_processing sentinel record on every failure (encoding error, call
error, invalid payload) — the key is never left absent. The conclusion holds
for an arbitrary assignment of outcomes to the sibling images, so one
image's failure never prevents a sibling's success record from being
written. -/
theorem processImagesParallel_isolation
    (d : Index) (imgs : List String) (oc : String → Outcome) (now : Nat)
    (img : String) (hmem : img ∈ imgs)
    (hnd : (imgs.map filepathBase).Nodup)
    (hneeds : needsProcessing d img = true) :
    lookupA (processImagesParallel d imgs oc now).data (filepathBase img) =
      some (writtenEntry img (oc img) now) ∧
      ((∃ s ds m, oc img = .response s ds m ∧
          validateResponse (some ⟨s, ds⟩) = true ∧
          writtenEntry img (oc img) now =
            .record ⟨s, ds, filepathBase img, m, now⟩) ∨
        ((∀ s ds m, oc img = .response s ds m →
            validateResponse (some ⟨s, ds⟩) = false) ∧
          writtenEntry img (oc img) now = .record (errorRecord img now))) := by
  constructor
  · have himgs : imgs ≠ [] := by rintro rfl; cases hmem
    have hmemf : img ∈ imgs.filter (fun i => needsProcessing d i) :=
      List.mem_filter.mpr ⟨hmem, by simpa using hneeds⟩
    have hfne : imgs.filter (fun i => needsProcessing d i) ≠ [] :=
      List.ne_nil_of_mem hmemf
    unfold processImagesParallel
    rw [if_neg himgs]
    simp only [if_neg hfne]
    exact par_fold_lookup_mem oc now img _ _ hmemf
      (List.Nodup.sublist ((List.filter_sublist _).map _) hnd) hneeds
  · cases hoc : oc img with
    | encodeError =>
        exact Or.inr ⟨fun s ds m hh => Outcome.noConfusion hh,
          by simp [writtenEntry]⟩
    | llmError =>
        exact Or.inr ⟨fun s ds m hh => Outcome.noConfusion hh,
          by simp [writtenEntry]⟩
    | response s ds m =>
        by_cases hv : validateResponse (some ⟨s, ds⟩) = true
        · exact Or.inl ⟨s, ds, m, rfl, hv, by simp [writtenEntry, hv]⟩
        · refine Or.inr ⟨?_, ?_⟩
          · intro s' ds' m' hh
            injection hh with h1 h2 h3
            subst h1
            subst h2
            exact Bool.eq_false_iff.mpr hv
          · simp [writtenEntry, Bool.eq_false_iff.mpr hv]

/-- Witness for C2: a fresh directory with two images where the sibling
b.jpg fails while a.jpg succeeds; a.jpg's complete record is written. -/
theorem processImagesParallel_isolation_witness :
    lookupA (processImagesParallel []
        ["a.jpg", "b.jpg"]
        (fun i => if i = "a.jpg" then Outcome.response "cat" "a cat" "m1"
          else Outcome.llmError) 7).data (filepathBase "a.jpg") =
      some (writtenEntry "a.jpg" (Outcome.response "cat" "a cat" "m1") 7) := by
  have h := processImagesParallel_isolation []
    ["a.jpg", "b.jpg"]
    (fun i => if i = "a.jpg" then Outcome.response "cat" "a cat" "m1"
      else Outcome.llmError) 7 "a.jpg"
    (by decide) (by decide) (by decide)
  exact h.1

/-- Claim C3 (amended): whenever a pass that is not the trivial early exit
(some image file present, or a non-empty loaded index) ends with an empty
DirectoryIndex, the existing index.json and index.md files are deleted,
nothing is saved, and the pass returns no catalog data. The hbase hypothesis
records that the image list comes from FindImagesToProcess, which never
returns a file whose base name is a reserved index filename. -/
theorem processDirectory_empty_final_deletes
    (loaded : Index) (imgs : List String) (jsonE mdE par : Bool)
    (oc : String → Outcome) (now : Nat)
    (hbase : ∀ i ∈ imgs,
      filepathBase i ≠ "index.json" ∧ filepathBase i ≠ "index.md")
    (hnontriv : ¬(imgs = [] ∧ loaded = []))
    (hfinal : (processDirectory loaded imgs jsonE mdE par oc now).final = []) :
    (processDirectory loaded imgs jsonE mdE par oc now).result = none ∧
      (processDirectory loaded imgs jsonE mdE par oc now).deletedJson = jsonE ∧
      (processDirectory loaded imgs jsonE mdE par oc now).deletedMd = mdE ∧
      (processDirectory loaded imgs jsonE mdE par oc now).saved = none := by
  rw [processDirectory_final loaded imgs jsonE mdE par oc now hnontriv] at hfinal
  by_cases himgs : imgs = []
  · subst himgs
    have hloaded : loaded ≠ [] := fun h => hnontriv ⟨rfl, h⟩
    rw [dirPass_empty_imgs] at hfinal
    have hchanged : pruneChanged loaded [] = true :=
      staleRemove_changed_of_empty loaded (existingKeys []) hloaded hfinal
    have hcond : ((pruneChanged loaded [] ||
          (dirPass (prunedIndex loaded []) [] par oc now).changed) || !jsonE) ∧
        (dirPass (prunedIndex loaded []) [] par oc now).data = [] := by
      constructor
      · rw [hchanged]
        simp
      · rw [dirPass_empty_imgs]
        exact hfinal
    unfold processDirectory
    rw [if_neg hnontriv, if_pos hcond]
    exact ⟨rfl, rfl, rfl, rfl⟩
  · exact absurd hfinal
      (dirPass_data_ne_nil (prunedIndex loaded imgs) imgs par oc now himgs hbase)

/-- Witness for C3 at a concrete directory: the only indexed image file was
removed from disk, so the pass empties the index, deletes both index files
and returns no catalog data. -/
theorem processDirectory_empty_final_deletes_witness :
    (processDirectory [("a.jpg", .record ⟨"cat", "a cat", "a.jpg", "m", 3⟩)]
        [] true true true (fun _ => Outcome.llmError) 9).result = none ∧
      (processDirectory [("a.jpg", .record ⟨"cat", "a cat", "a.jpg", "m", 3⟩)]
        [] true true true (fun _ => Outcome.llmError) 9).deletedJson = true ∧
      (processDirectory [("a.jpg", .record ⟨"cat", "a cat", "a.jpg", "m", 3⟩)]
        [] true true true (fun _ => Outcome.llmError) 9).deletedMd = true ∧
      (processDirectory [("a.jpg", .record ⟨"cat", "a cat", "a.jpg", "m", 3⟩)]
        [] true true true (fun _ => Outcome.llmError) 9).saved = none := by
  have h := processDirectory_empty_final_deletes
    [("a.jpg", .record ⟨"cat", "a cat", "a.jpg", "m", 3⟩)] [] true true true
    (fun _ => Outcome.llmError) 9 (by decide) (by decide) (by decide)
  exact h

/-- Claim C4 (amended): running the Directory Reconciler twice in a row on
an unchanged directory performs zero Analysis Client calls in the second run
and reproduces the first run's index exactly (not merely modulo timestamps),
provided every image's first-run outcome is a valid response whose
short_name is not the error sentinel. Without that proviso the claim fails:
a failed first-run analysis leaves an error_processing entry, which the next
pass re-attempts by design, issuing a call. -/
theorem processDirectory_idempotent
    (loaded : Index) (imgs : List String) (jsonE mdE : Bool)
    (oc : String → Outcome) (now1 now2 : Nat)
    (hg : ∀ i ∈ imgs, goodOutcome (oc i) = true) :
    (processDirectory
        (loadAfter (processDirectory loaded imgs jsonE mdE true oc now1)) imgs
        (jsonExistsAfter (processDirectory loaded imgs jsonE mdE true oc now1) jsonE)
        (mdExistsAfter (processDirectory loaded imgs jsonE mdE true oc now1) mdE)
        true oc now2).calls = 0 ∧
      (processDirectory
        (loadAfter (processDirectory loaded imgs jsonE mdE true oc now1)) imgs
        (jsonExistsAfter (processDirectory loaded imgs jsonE mdE true oc now1) jsonE)
        (mdExistsAfter (processDirectory loaded imgs jsonE mdE true oc now1) mdE)
        true oc now2).final =
      (processDirectory loaded imgs jsonE mdE true oc now1).final := by
  by_cases himgs : imgs = []
  · subst himgs
    by_cases hl : loaded = []
    · subst hl
      have hr1 : processDirectory [] [] jsonE mdE true oc now1 =
          ⟨none, false, false, none, false, [], 0⟩ := by
        unfold processDirectory
        rw [if_pos ⟨rfl, rfl⟩]
      have hload : loadAfter (processDirectory [] [] jsonE mdE true oc now1) = [] := by
        rw [hr1]
        rfl
      rw [hload, hr1]
      constructor
      · unfold processDirectory
        rw [if_pos ⟨rfl, rfl⟩]
      · unfold processDirectory
        rw [if_pos ⟨rfl, rfl⟩]
    · have hnontriv : ¬(([] : List String) = [] ∧ loaded = []) :=
        fun hc => hl hc.2
      by_cases hd1 : prunedIndex loaded [] = []
      · have hchanged : pruneChanged loaded [] = true :=
          staleRemove_changed_of_empty loaded (existingKeys []) hl hd1
        have hcond : ((pruneChanged loaded [] ||
              (dirPass (prunedIndex loaded []) [] true oc now1).changed) || !jsonE) ∧
            (dirPass (prunedIndex loaded []) [] true oc now1).data = [] := by
          constructor
          · rw [hchanged]
            simp
          · rw [dirPass_empty_imgs]
            exact hd1
        have hr1 : processDirectory loaded [] jsonE mdE true oc now1 =
            ⟨none, jsonE, mdE, none, false,
              (dirPass (prunedIndex loaded []) [] true oc now1).data,
              (dirPass (prunedIndex loaded []) [] true oc now1).calls⟩ := by
          unfold processDirectory
          rw [if_neg hnontriv, if_pos hcond]
        have hload : loadAfter (processDirectory loaded [] jsonE mdE true oc now1) = [] := by
          rw [hr1]
          rfl
        rw [hload, hr1]
        constructor
        · show (processDirectory [] [] _ _ true oc now2).calls = 0
          unfold processDirectory
          rw [if_pos ⟨rfl, rfl⟩]
        · show (processDirectory [] [] _ _ true oc now2).final =
            (dirPass (prunedIndex loaded []) [] true oc now1).data
          unfold processDirectory
          rw [if_pos ⟨rfl, rfl⟩]
          rw [dirPass_empty_imgs]
          exact hd1.symm
      · have hne : (dirPass (prunedIndex loaded []) [] true oc now1).data ≠ [] := by
          rw [dirPass_empty_imgs]
          exact hd1
        have hr1 := processDirectory_save loaded [] jsonE mdE true oc now1 hnontriv hne
        have hload : loadAfter (processDirectory loaded [] jsonE mdE true oc now1) =
            prunedIndex loaded [] := by
          rw [hr1]
          show (some (dirPass (prunedIndex loaded []) [] true oc now1).data).getD [] = _
          rw [dirPass_empty_imgs]
          rfl
        have hnontriv2 : ¬(([] : List String) = [] ∧ prunedIndex loaded [] = []) :=
          fun hc => hd1 hc.2
        rw [hload, hr1]
        constructor
        · show (processDirectory (prunedIndex loaded []) [] _ _ true oc now2).calls = 0
          rw [processDirectory_calls _ _ _ _ _ _ _ hnontriv2, dirPass_empty_imgs]
        · show (processDirectory (prunedIndex loaded []) [] _ _ true oc now2).final =
            (dirPass (prunedIndex loaded []) [] true oc now1).data
          rw [processDirectory_final _ _ _ _ _ _ _ hnontriv2, dirPass_empty_imgs,
            dirPass_empty_imgs]
          show prunedIndex (prunedIndex loaded []) [] = prunedIndex loaded []
          show (staleRemove (prunedIndex loaded []) (existingKeys [])).1 =
            prunedIndex loaded []
          rw [staleRemove_noop _ _ (prunedIndex_keep loaded [])]
  · have hnontriv1 : ¬(imgs = [] ∧ loaded = []) := fun hc => himgs hc.1
    have hP1ne : (dirPass (prunedIndex loaded imgs) imgs true oc now1).data ≠ [] := by
      rw [dirPass_parallel]
      exact processImagesParallel_data_ne_nil _ _ _ _ himgs
    have hr1 := processDirectory_save loaded imgs jsonE mdE true oc now1 hnontriv1 hP1ne
    have hload : loadAfter (processDirectory loaded imgs jsonE mdE true oc now1) =
        (processImagesParallel (prunedIndex loaded imgs) imgs oc now1).data := by
      rw [hr1]
      show (some (dirPass (prunedIndex loaded imgs) imgs true oc now1).data).getD [] = _
      rw [dirPass_parallel]
      rfl
    have hnontriv2 : ¬(imgs = [] ∧
        (processImagesParallel (prunedIndex loaded imgs) imgs oc now1).data = []) :=
      fun hc => himgs hc.1
    have hpi : prunedIndex
        (processImagesParallel (prunedIndex loaded imgs) imgs oc now1).data imgs =
        (processImagesParallel (prunedIndex loaded imgs) imgs oc now1).data := by
      show (staleRemove (processImagesParallel (prunedIndex loaded imgs) imgs oc now1).data
        (existingKeys imgs)).1 = _
      rw [staleRemove_noop_on_pass_output loaded imgs oc now1]
    have hneeds2 := needs_false_after_good_run (prunedIndex loaded imgs) imgs oc now1 hg
    have hpip2 : processImagesParallel
        (processImagesParallel (prunedIndex loaded imgs) imgs oc now1).data imgs oc now2 =
        ⟨(processImagesParallel (prunedIndex loaded imgs) imgs oc now1).data, false, 0⟩ :=
      processImagesParallel_of_all_not_needs _ _ _ _ hneeds2
    rw [hload, hr1]
    constructor
    · show (processDirectory
          (processImagesParallel (prunedIndex loaded imgs) imgs oc now1).data imgs
          _ _ true oc now2).calls = 0
      rw [processDirectory_calls _ _ _ _ _ _ _ hnontriv2, hpi, dirPass_parallel, hpip2]
    · show (processDirectory
          (processImagesParallel (prunedIndex loaded imgs) imgs oc now1).data imgs
          _ _ true oc now2).final =
        (dirPass (prunedIndex loaded imgs) imgs true oc now1).data
      rw [processDirectory_final _ _ _ _ _ _ _ hnontriv2, hpi, dirPass_parallel, hpip2,
        dirPass_parallel]

/-- Witness for C4: one image analyzed successfully in the first run; the
second run issues no calls and leaves the index unchanged. -/
theorem processDirectory_idempotent_witness :
    (processDirectory
        (loadAfter (processDirectory [] ["a.jpg"] false false true
          (fun _ => Outcome.response "cat" "a cat" "m") 1)) ["a.jpg"]
        (jsonExistsAfter (processDirectory [] ["a.jpg"] false false true
          (fun _ => Outcome.response "cat" "a cat" "m") 1) false)
        (mdExistsAfter (processDirectory [] ["a.jpg"] false false true
          (fun _ => Outcome.response "cat" "a cat" "m") 1) false)
        true (fun _ => Outcome.response "cat" "a cat" "m") 2).calls = 0 ∧
      (processDirectory
        (loadAfter (processDirectory [] ["a.jpg"] false false true
          (fun _ => Outcome.response "cat" "a cat" "m") 1)) ["a.jpg"]
        (jsonExistsAfter (processDirectory [] ["a.jpg"] false false true
          (fun _ => Outcome.response "cat" "a cat" "m") 1) false)
        (mdExistsAfter (processDirectory [] ["a.jpg"] false false true
          (fun _ => Outcome.response "cat" "a cat" "m") 1) false)
        true (fun _ => Outcome.response "cat" "a cat" "m") 2).final =
      (processDirectory [] ["a.jpg"] false false true
        (fun _ => Outcome.response "cat" "a cat" "m") 1).final :=
  processDirectory_idempotent [] ["a.jpg"] false false
    (fun _ => Outcome.response "cat" "a cat" "m") 1 2 (by decide)

/-- Counterexample to Claim C4 as stated: with one image whose analysis
fails in the first run (writing the error_processing sentinel), the second
run over the unchanged directory re-attempts it and performs an Analysis
Client call, so the second run's call count is not zero. -/
theorem processDirectory_second_run_calls_counterexample :
    (processDirectory
        (loadAfter (processDirectory [] ["a.jpg"] false false true
          (fun _ => Outcome.llmError) 1)) ["a.jpg"]
        (jsonExistsAfter (processDirectory [] ["a.jpg"] false false true
          (fun _ => Outcome.llmError) 1) false)
        (mdExistsAfter (processDirectory [] ["a.jpg"] false false true
          (fun _ => Outcome.llmError) 1) false)
        true (fun _ => Outcome.llmError) 2).calls ≠ 0 := by
  decide

/-- Counterexample to Claim C3 as stated: a directory holding no image files
whose index.json exists but decodes to an empty index (for example a
corrupted file, which LoadExistingData maps to the empty index) takes the
early exit of ProcessDirectory: the pass ends with an empty DirectoryIndex
yet deletes neither existing index file. -/
theorem processDirectory_empty_final_counterexample :
    (processDirectory [] [] true true true (fun _ => Outcome.llmError) 9).final
        = [] ∧
      (processDirectory [] [] true true true
        (fun _ => Outcome.llmError) 9).deletedJson = false ∧
      (processDirectory [] [] true true true
        (fun _ => Outcome.llmError) 9).deletedMd = false := by
  decide

/-- Claim C5 (code bug): the CatalogSummary's last_update is the wall-clock
time of the call, not the maximum update_date across records — the type
assertion in createCatalogData's loop is inverted (!ok), so its body runs
only for non-object values, with meta the nil map, and the maximum
computation is dead code. At an index holding one record dated 100,
evaluated at time 200, the code produces 200 while the spec's maximum of the
records' update dates is 100. image_count is correct. -/
theorem createCatalogData_last_update_bug :
    createCatalogData [("a.jpg", .record ⟨"cat", "a cat", "a.jpg", "m", 100⟩)] 200 =
        some ⟨1, 200⟩ ∧
      specLastUpdate [("a.jpg", .record ⟨"cat", "a cat", "a.jpg", "m", 100⟩)] = 100 ∧
      (100 : Nat) ≠ 200 := by
  decide

theorem processDirectory_result_eq_saved (loaded : Index) (imgs : List String)
    (jsonE mdE par : Bool) (oc : String → Outcome) (now : Nat) :
    (processDirectory loaded imgs jsonE mdE par oc now).result =
      Option.bind (processDirectory loaded imgs jsonE mdE par oc now).saved
        (fun idx => createCatalogData idx now) := by
  unfold processDirectory
  split
  · rfl
  · split
    · rfl
    · rfl

/-- Claim C6 (amended): GenerateGlobalIndex serializes the catalogs map that
ProcessCatalog accumulated in memory during the walk; for each walked
directory that entry equals the summary of the index.json that very pass
persisted, so the written GlobalIndex aggregates exactly the walked
directories' fresh persisted indices — and nothing else. -/
theorem processCatalogGlobal_matches_walked (dirs : List DirInput)
    (oc : String → String → Outcome) (now : Nat) :
    processCatalogGlobal dirs oc now = walkedPersistedAggregate dirs oc now := by
  unfold processCatalogGlobal walkedPersistedAggregate
  apply List.foldl_ext
  intro acc d _
  rw [processDirectory_result_eq_saved]
  cases hs : (processDirectory d.loaded d.images d.jsonExists d.mdExists true
      (oc d.relPath) now).saved with
  | none => rfl
  | some idx => rfl

/-- Counterexample to Claim C6 as stated: a single-catalog walk visits only
catalog A (which persists one fresh record) while catalog B keeps a
non-empty persisted index.json; the GlobalIndex the code writes has no entry
for B, whereas aggregating every subdirectory's persisted index.json yields
one, so the written GlobalIndex is not computed from the persisted files and
cannot be rebuilt standalone from them. -/
theorem processCatalogGlobal_counterexample :
    (processDirectory [] ["a.jpg"] false false true
        (fun _ => Outcome.response "cat" "a cat" "m") 5).saved =
        some [("a.jpg", .record ⟨"cat", "a cat", "a.jpg", "m", 5⟩)] ∧
      lookupA (processCatalogGlobal
        [⟨"catA", [], ["a.jpg"], false, false⟩]
        (fun _ _ => Outcome.response "cat" "a cat" "m") 5) "catB" = none ∧
      lookupA (globalFromPersisted
        [("catA", [("a.jpg", .record ⟨"cat", "a cat", "a.jpg", "m", 5⟩)]),
         ("catB", [("b.jpg", .record ⟨"dog", "a dog", "b.jpg", "m", 4⟩)])] 5)
        "catB" = some ⟨1, 5⟩ := by
  decide

theorem askLLM_ok_parsed (parse : String → Option Json) (r : HttpResult)
    (resp : LLMResponse) (m : String) (h : askLLM r parse = .ok (resp, m)) :
    ∃ j : Json, unmarshalLLMResponse j = some resp := by
  cases r with
  | netError => exact Except.noConfusion h
  | response status body =>
      unfold askLLM at h
      dsimp only at h
      by_cases hs : status ≠ 200
      · rw [if_pos hs] at h
        exact Except.noConfusion h
      · rw [if_neg hs] at h
        cases body with
        | readError => exact Except.noConfusion h
        | malformed => exact Except.noConfusion h
        | parsed j =>
            dsimp only at h
            cases hm : jsonToMap j with
            | none => rw [hm] at h; exact Except.noConfusion h
            | some fields =>
                rw [hm] at h
                dsimp only at h
                cases hc : extractContent fields with
                | error e => rw [hc] at h; exact Except.noConfusion h
                | ok content =>
                    rw [hc] at h
                    dsimp only at h
                    cases hp : parse content with
                    | none => rw [hp] at h; exact Except.noConfusion h
                    | some cj =>
                        rw [hp] at h
                        dsimp only at h
                        cases hu : unmarshalLLMResponse cj with
                        | none => rw [hu] at h; exact Except.noConfusion h
                        | some resp' =>
                            rw [hu] at h
                            dsimp only at h
                            refine ⟨cj, ?_⟩
                            rw [hu]
                            injection h with h1
                            injection h1 with h2 h3
                            rw [h2]

/-- Claim C7 (amended): AskLLM surfaces a network failure, any non-2xx
status (in fact any non-200 status), an unreadable body, a malformed JSON
body, and a content payload that fails to parse or whose short_name /
description fields are not strings, as errors; but a payload that parses
with EMPTY (or absent) short_name or description is returned as a non-error
response — it is the caller's ValidateResponse that rejects exactly those,
so ProcessSingleImage records the error_processing sentinel, never a success
record, for them. -/
theorem askLLM_error_surfacing (parse : String → Option Json) :
    askLLM .netError parse = .error .network ∧
      (∀ status body, status ≠ 200 →
        askLLM (.response status body) parse = .error (.status status)) ∧
      askLLM (.response 200 .readError) parse = .error .readBody ∧
      askLLM (.response 200 .malformed) parse = .error .unmarshalBody ∧
      (∀ r resp m, askLLM r parse = .ok (resp, m) →
        ∃ j : Json, unmarshalLLMResponse j = some resp) ∧
      (∀ resp : LLMResponse, resp.short_name = "" ∨ resp.description = "" →
        validateResponse (some resp) = false) ∧
      (∀ d img ds mn now, needsProcessing d img = true →
        lookupA (processSingleImage d img (.response "" ds mn) now).data
            (filepathBase img) = some (.record (errorRecord img now))) := by
  refine ⟨rfl, ?_, rfl, rfl, ?_, ?_, ?_⟩
  · intro status body hs
    unfold askLLM
    dsimp only
    rw [if_pos hs]
  · exact fun r resp m h => askLLM_ok_parsed parse r resp m h
  · intro resp hre
    rcases hre with he | he <;> simp [validateResponse, he]
  · intro d img ds mn now hneeds
    rw [psi_data_of_needs d img _ now hneeds, lookupA_upsert_self]
    show some (writtenEntry img (.response "" ds mn) now) = _
    simp [writtenEntry, validateResponse]

/-- Witness for C7: a 404 response is surfaced as a status error. -/
theorem askLLM_error_surfacing_witness :
    askLLM (.response 404 .malformed) (fun _ => none) = .error (.status 404) :=
  (askLLM_error_surfacing (fun _ => none)).2.1 404 .malformed (by decide)

/-- Counterexample to Claim C7 as stated: a 200 response whose content
string parses to the empty JSON object — so short_name and description are
absent and decode to empty strings — is returned by AskLLM as a non-error
result carrying empty fields, not surfaced as an error. -/
theorem askLLM_empty_fields_counterexample :
    askLLM (.response 200 (.parsed (Json.obj [("choices",
        Json.arr [Json.obj [("message",
          Json.obj [("content", Json.str "\x7b\x7d")])]])])))
      (fun s => if s = "\x7b\x7d" then some (Json.obj []) else none) =
      .ok (⟨"", ""⟩, "") := by
  rfl

theorem addTask_buffer_le (q : QueueState) (catalogName source : String)
    (now : Nat) (h : q.buffer.length ≤ queueCapacity) :
    (addTask q catalogName source now).1.buffer.length ≤ queueCapacity := by
  unfold addTask
  split
  · exact h
  · split
    · simp only [List.length_append, List.length_cons, List.length_nil]
      omega
    · exact h

theorem addTasks_buffer_le (ts : List (String × String × Nat)) :
    ∀ q : QueueState, q.buffer.length ≤ queueCapacity →
      (addTasks q ts).buffer.length ≤ queueCapacity := by
  induction ts with
  | nil => intro q h; exact h
  | cons t rest ih =>
      intro q h
      show (addTasks ((addTask q t.1 t.2.1 t.2.2).1) rest).buffer.length ≤ queueCapacity
      exact ih _ (addTask_buffer_le q t.1 t.2.1 t.2.2 h)

/-- Claim C8: AddTask never returns an error; when the queue is running and
the buffered channel (capacity 100) is full, the non-blocking send drops the
task and leaves the queue unchanged; and a burst of enqueues while the
single worker consumes nothing never grows the buffer past the capacity, so
at most 100 tasks can ever be delivered to the worker afterwards. The model
is a total function, so no call blocks or panics. -/
theorem addTask_overflow_behavior (q : QueueState)
    (catalogName source : String) (now : Nat)
    (ts : List (String × String × Nat)) :
    (addTask q catalogName source now).2 = none ∧
      (q.running = true → q.buffer.length = queueCapacity →
        (addTask q catalogName source now).1 = q) ∧
      (q.buffer.length ≤ queueCapacity →
        (addTasks q ts).buffer.length ≤ queueCapacity) := by
  refine ⟨?_, ?_, fun h => addTasks_buffer_le ts q h⟩
  · unfold addTask
    split
    · rfl
    · split
      · rfl
      · rfl
  · intro hr hl
    unfold addTask
    rw [if_neg (by simp [hr]), if_neg (by rw [hl]; exact Nat.lt_irrefl _)]

/-- Witness for C8: a running queue whose buffer holds 100 tasks drops a new
task without error, and enqueuing 105 tasks from an empty running queue
leaves at most 100 buffered. -/
theorem addTask_overflow_behavior_witness :
    (addTask ⟨true, List.replicate 100 ⟨"c", "watcher", 0⟩⟩ "c" "manual" 1).2
        = none ∧
      (addTask ⟨true, List.replicate 100 ⟨"c", "watcher", 0⟩⟩ "c" "manual" 1).1 =
        ⟨true, List.replicate 100 ⟨"c", "watcher", 0⟩⟩ ∧
      (addTasks ⟨true, List.replicate 100 ⟨"c", "watcher", 0⟩⟩
        (List.replicate 105 ("c", "manual", 0))).buffer.length ≤ queueCapacity := by
  obtain ⟨h1, h2, h3⟩ := addTask_overflow_behavior
    ⟨true, List.replicate 100 ⟨"c", "watcher", 0⟩⟩ "c" "manual" 1
    (List.replicate 105 ("c", "manual", 0))
  exact ⟨h1, h2 rfl (by simp [queueCapacity]), h3 (by simp [queueCapacity])⟩

theorem countP_set_step (p : GoPhase → Bool) :
    ∀ (l : List GoPhase) (i : Nat) (v w : GoPhase), l.get? i = some v →
      (l.set i w).countP p + (if p v then 1 else 0) =
        l.countP p + (if p w then 1 else 0) := by
  intro l
  induction l with
  | nil => intro i v w h; cases h
  | cons a t ih =>
      intro i v w h
      cases i with
      | zero =>
          simp only [List.get?] at h
          injection h with h
          subst h
          simp only [List.set, List.countP_cons]
          omega
      | succ n =>
          simp only [List.get?] at h
          simp only [List.set, List.countP_cons]
          have := ih n v w h
          omega

theorem semStep_inv (K : Nat) (s s' : SemState) (hs : SemStep K s s')
    (h1 : countInflight s ≤ s.tokens) (h2 : s.tokens ≤ K) :
    countInflight s' ≤ s'.tokens ∧ s'.tokens ≤ K := by
  cases hs with
  | acquire i hidle hk =>
      have hc := countP_set_step (fun p => p == GoPhase.inflight)
        s.phases i .idle .inflight hidle
      simp at hc
      unfold countInflight at *
      refine ⟨?_, ?_⟩
      · show (s.phases.set i .inflight).countP (fun p => p == GoPhase.inflight) ≤
          s.tokens + 1
        omega
      · show s.tokens + 1 ≤ K
        omega
  | finish i hin =>
      have hc := countP_set_step (fun p => p == GoPhase.inflight)
        s.phases i .inflight .finished hin
      simp at hc
      unfold countInflight at *
      refine ⟨?_, ?_⟩
      · show (s.phases.set i .finished).countP (fun p => p == GoPhase.inflight) ≤
          s.tokens - 1
        omega
      · show s.tokens - 1 ≤ K
        omega
  | abort i hidle =>
      have hc := countP_set_step (fun p => p == GoPhase.inflight)
        s.phases i .idle .finished hidle
      simp at hc
      unfold countInflight at *
      refine ⟨?_, ?_⟩
      · show (s.phases.set i .finished).countP (fun p => p == GoPhase.inflight) ≤
          s.tokens
        omega
      · exact h2

/-- Claim C9: in every reachable interleaving of one parallel pass with a
concurrency cap of K, at most K Analysis Client calls are in flight
simultaneously — the semaphore channel of capacity K admits an acquire only
below K tokens, and every in-flight call holds a token. -/
theorem semaphore_concurrency_bound (K n : Nat) (s : SemState)
    (hr : SemReach K n s) : countInflight s ≤ K := by
  have h : countInflight s ≤ s.tokens ∧ s.tokens ≤ K := by
    induction hr with
    | init =>
        constructor
        · have : countInflight (initState n) = 0 := by
            unfold countInflight initState
            exact List.countP_eq_zero.mpr
              (fun a ha => by simp [List.eq_of_mem_replicate ha])
          omega
        · exact Nat.zero_le K
    | step s s' hr hs ih => exact semStep_inv K s s' hs ih.1 ih.2
  omega

/-- Witness for C9: with K = 2 and two goroutines, the state reached after
one acquire has one call in flight, within the bound. -/
theorem semaphore_concurrency_bound_witness :
    countInflight ⟨[GoPhase.inflight, GoPhase.idle], 1⟩ ≤ 2 :=
  semaphore_concurrency_bound 2 2 ⟨[GoPhase.inflight, GoPhase.idle], 1⟩
    (SemReach.step (initState 2) ⟨[GoPhase.inflight, GoPhase.idle], 1⟩
      SemReach.init
      (by exact SemStep.acquire (initState 2) 0 (by decide) (by decide)))

theorem mem_fold_glob (files : List String) :
    ∀ (exts : List String) (acc : List String) (x : String),
      x ∈ exts.foldl (fun acc ext =>
          (acc ++ files.filter (fun n => strEndsWith n ext)) ++
            files.filter (fun n => strEndsWith n (extUpperTail ext))) acc ↔
        (x ∈ acc ∨ ∃ ext ∈ exts, x ∈ files ∧
          (strEndsWith x ext = true ∨ strEndsWith x (extUpperTail ext) = true)) := by
  intro exts
  induction exts with
  | nil => simp
  | cons e t ih =>
      intro acc x
      simp only [List.foldl_cons]
      rw [ih]
      simp only [List.mem_append, List.mem_filter, List.exists_mem_cons_iff]
      constructor
      · rintro (((h | ⟨hf, h1⟩) | ⟨hf, h2⟩) | hrest)
        · exact Or.inl h
        · exact Or.inr (Or.inl ⟨hf, Or.inl h1⟩)
        · exact Or.inr (Or.inl ⟨hf, Or.inr h2⟩)
        · exact Or.inr (Or.inr hrest)
      · rintro (h | (⟨hf, h1 | h2⟩ | hrest))
        · exact Or.inl (Or.inl (Or.inl h))
        · exact Or.inl (Or.inl (Or.inr ⟨hf, h1⟩))
        · exact Or.inl (Or.inr ⟨hf, h2⟩)
        · exact Or.inr hrest

/-- Claim C10 (amended): HasImages is fully case-insensitive — it holds iff
some direct child file's lowercased extension equals some lowercased
configured extension — while FindImagesToProcess only returns files that end
in a configured extension as written (e.g. ".jpg") or end in the uppercased
extension with its leading dot stripped (e.g. "JPG", the glob built from
ext[1:]); hence a directory whose only image file has a mixed-case extension
such as ".Jpg" has HasImages true while FindImagesToProcess finds nothing. -/
theorem scanner_extension_mismatch (exts files : List String)
    (entries : List DirEntry) :
    (hasImages exts entries = true ↔
      ∃ e ∈ entries, e.isDir = false ∧
        ∃ ext ∈ exts, strLower (extOf e.name) = strLower ext) ∧
      (∀ x ∈ findImagesToProcess exts files,
        x ∈ files ∧ x ≠ "index.json" ∧ x ≠ "index.md" ∧
          ∃ ext ∈ exts, strEndsWith x ext = true ∨
            strEndsWith x (extUpperTail ext) = true) ∧
      (hasImages [".jpg"] [⟨"photo.Jpg", false⟩] = true ∧
        findImagesToProcess [".jpg"] ["photo.Jpg"] = []) := by
  refine ⟨?_, ?_, by decide⟩
  · unfold hasImages
    rw [List.any_eq_true]
    constructor
    · rintro ⟨e, he, hb⟩
      simp only [Bool.and_eq_true, Bool.not_eq_true', List.any_eq_true,
        beq_iff_eq] at hb
      exact ⟨e, he, hb.1, hb.2⟩
    · rintro ⟨e, he, hdir, ext, hext, heq⟩
      refine ⟨e, he, ?_⟩
      simp only [Bool.and_eq_true, Bool.not_eq_true', List.any_eq_true,
        beq_iff_eq]
      exact ⟨hdir, ext, hext, heq⟩
  · intro x hx
    unfold findImagesToProcess at hx
    rw [List.mem_filter] at hx
    obtain ⟨hmem, hres⟩ := hx
    rw [mem_fold_glob] at hmem
    simp only [List.not_mem_nil, false_or] at hmem
    obtain ⟨ext, hext, hxf, hor⟩ := hmem
    simp only [Bool.and_eq_true, bne_iff_ne] at hres
    exact ⟨hxf, hres.1, hres.2, ext, hext, hor⟩

/-- Witness for C10 at a concrete directory: a.jpg is returned and indeed
ends in the configured lowercase extension. -/
theorem scanner_extension_mismatch_witness :
    "a.jpg" ∈ (["a.jpg"] : List String) ∧ "a.jpg" ≠ "index.json" ∧
      "a.jpg" ≠ "index.md" ∧
      ∃ ext ∈ ([".jpg"] : List String), strEndsWith "a.jpg" ext = true ∨
        strEndsWith "a.jpg" (extUpperTail ext) = true :=
  (scanner_extension_mismatch [".jpg"] ["a.jpg"] []).2.1 "a.jpg" (by decide)

/-- Counterexample to Claim C10's characterization of FindImagesToProcess as
matching only the configured extension or its all-uppercase form: the
uppercase glob is built from ext[1:], dropping the dot, so the pattern for
".jpg" is *JPG and the file fooJPG is matched although it ends neither in
".jpg" nor in ".JPG". -/
theorem findImagesToProcess_counterexample :
    findImagesToProcess [".jpg"] ["fooJPG"] = ["fooJPG"] ∧
      strEndsWith "fooJPG" ".jpg" = false ∧
      strEndsWith "fooJPG" ".JPG" = false := by
  decide

end KBase
